import Mathlib

/-!
Shallow embedding of the software 3D renderer in src/main.rs and proofs about it.

Modelling conventions:
* every `f32` scalar is modelled as a real number; machine-float rounding,
  NaN and infinity are not modelled (the spec's tolerance claims become exact
  statements over `ℝ`);
* Rust's `f32 as i32` cast (truncation toward zero) is `truncToInt`;
* the flat `Vec<u32>` / `Vec<f32>` pixel buffers are Lean lists, indexed
  assignment `buf[i] = v` is `List.set`;
* fallible code (`Mesh::from_obj`) returns `Except Unit`; an out-of-bounds
  index panic is modelled as a hard error as well.
-/

noncomputable section

/-- Truncation toward zero, the semantics of Rust's `as i32` cast on a float
value that is in range. -/
def truncToInt (r : ℝ) : ℤ :=
  if 0 ≤ r then ⌊r⌋ else -⌊-r⌋

/-- `Vec2` from src/main.rs: a pair of `f32` screen coordinates. -/
structure Vec2 where
  x : ℝ
  y : ℝ

/-- `Vec2::new`. -/
def Vec2.new (x y : ℝ) : Vec2 := ⟨x, y⟩

/-- `Vec3` from src/main.rs. -/
structure Vec3 where
  x : ℝ
  y : ℝ
  z : ℝ

/-- `Vec3::new`. -/
def Vec3.new (x y z : ℝ) : Vec3 := ⟨x, y, z⟩

/-- `Vec3::ZERO`. -/
def Vec3.ZERO : Vec3 := ⟨0, 0, 0⟩

/-- `Vec3::UP`. -/
def Vec3.UP : Vec3 := ⟨0, 1, 0⟩

instance : Add Vec3 := ⟨fun a b => ⟨a.x + b.x, a.y + b.y, a.z + b.z⟩⟩

instance : Sub Vec3 := ⟨fun a b => ⟨a.x - b.x, a.y - b.y, a.z - b.z⟩⟩

instance : Neg Vec3 := ⟨fun a => ⟨-a.x, -a.y, -a.z⟩⟩

instance : HMul Vec3 ℝ Vec3 := ⟨fun a s => ⟨a.x * s, a.y * s, a.z * s⟩⟩

instance : HDiv Vec3 ℝ Vec3 := ⟨fun a s => ⟨a.x / s, a.y / s, a.z / s⟩⟩

/-- `Vec3::length_squared`. -/
def Vec3.length_squared (v : Vec3) : ℝ := v.x * v.x + v.y * v.y + v.z * v.z

/-- `Vec3::length`. -/
def Vec3.length (v : Vec3) : ℝ := Real.sqrt v.length_squared

/-- `Vec3::normalized`: the zero vector (more precisely any vector whose
length is `≤ 0`) maps to `Vec3::ZERO`, every other vector is divided by its
length. -/
def Vec3.normalized (v : Vec3) : Vec3 :=
  let len := v.length
  if len ≤ 0 then Vec3.ZERO else v / len

/-- `Vec3::dot`. -/
def Vec3.dot (v other : Vec3) : ℝ := v.x * other.x + v.y * other.y + v.z * other.z

/-- `Vec3::cross`. -/
def Vec3.cross (v other : Vec3) : Vec3 :=
  ⟨v.y * other.z - v.z * other.y,
   v.z * other.x - v.x * other.z,
   v.x * other.y - v.y * other.x⟩

/-- `Vec4` from src/main.rs. -/
structure Vec4 where
  x : ℝ
  y : ℝ
  z : ℝ
  w : ℝ

/-- `Vec4::new`. -/
def Vec4.new (x y z w : ℝ) : Vec4 := ⟨x, y, z, w⟩

/-- `Vec4::xyz`. -/
def Vec4.xyz (v : Vec4) : Vec3 := ⟨v.x, v.y, v.z⟩

/-- `Mat4` from src/main.rs: a row-major 4×4 matrix, one field per entry
(`mRC` is row `R`, column `C` of `m: [[f32; 4]; 4]`). -/
structure Mat4 where
  m00 : ℝ
  m01 : ℝ
  m02 : ℝ
  m03 : ℝ
  m10 : ℝ
  m11 : ℝ
  m12 : ℝ
  m13 : ℝ
  m20 : ℝ
  m21 : ℝ
  m22 : ℝ
  m23 : ℝ
  m30 : ℝ
  m31 : ℝ
  m32 : ℝ
  m33 : ℝ

/-- `Mat4::identity`. -/
def Mat4.identity : Mat4 :=
  ⟨1, 0, 0, 0,
   0, 1, 0, 0,
   0, 0, 1, 0,
   0, 0, 0, 1⟩

/-- `impl Mul<Vec4> for Mat4`: matrix × column-vector product. -/
instance : HMul Mat4 Vec4 Vec4 :=
  ⟨fun a v =>
    ⟨a.m00 * v.x + a.m01 * v.y + a.m02 * v.z + a.m03 * v.w,
     a.m10 * v.x + a.m11 * v.y + a.m12 * v.z + a.m13 * v.w,
     a.m20 * v.x + a.m21 * v.y + a.m22 * v.z + a.m23 * v.w,
     a.m30 * v.x + a.m31 * v.y + a.m32 * v.z + a.m33 * v.w⟩⟩

/-- `Color` from src/main.rs: a linear RGB triple. -/
structure Color where
  r : ℝ
  g : ℝ
  b : ℝ

/-- `Color::new` / `Color::from_rgb`. -/
def Color.from_rgb (r g b : ℝ) : Color := ⟨r, g, b⟩

instance : Add Color := ⟨fun a b => ⟨a.r + b.r, a.g + b.g, a.b + b.b⟩⟩

instance : HMul Color ℝ Color := ⟨fun a s => ⟨a.r * s, a.g * s, a.b * s⟩⟩

instance : Mul Color := ⟨fun a b => ⟨a.r * b.r, a.g * b.g, a.b * b.b⟩⟩

/-- Rust's `f32::clamp(lo, hi)`. -/
def clampR (x lo hi : ℝ) : ℝ :=
  if x < lo then lo else if x > hi then hi else x

/-- `Color::to_u32`: clamp each channel to `[0,1]`, scale by 255, truncate to
an integer (the operand is nonnegative, so the `as u32` cast is the floor)
and pack as `(r << 16) | (g << 8) | b`. -/
def Color.to_u32 (c : Color) : ℕ :=
  let r := (⌊clampR c.r 0 1 * 255⌋).toNat
  let g := (⌊clampR c.g 0 1 * 255⌋).toNat
  let b := (⌊clampR c.b 0 1 * 255⌋).toNat
  (r <<< 16) ||| (g <<< 8) ||| b

/-- `Color::from_u32`: unpack the three 8-bit fields and divide by 255. -/
def Color.from_u32 (value : ℕ) : Color :=
  ⟨(((value >>> 16) &&& 0xFF : ℕ) : ℝ) / 255,
   (((value >>> 8) &&& 0xFF : ℕ) : ℝ) / 255,
   ((value &&& 0xFF : ℕ) : ℝ) / 255⟩

/-- A vector is `Vec3.ZERO` iff all components vanish; helper for C5. -/
theorem Vec3.eq_zero_iff (v : Vec3) : v = Vec3.ZERO ↔ v.x = 0 ∧ v.y = 0 ∧ v.z = 0 := by
  cases v
  simp [Vec3.ZERO, Vec3.mk.injEq]

/-- The squared length is positive on nonzero vectors; helper for C5. -/
theorem Vec3.length_squared_pos (v : Vec3) (h : v ≠ Vec3.ZERO) : 0 < v.length_squared := by
  rcases lt_or_eq_of_le (add_nonneg (add_nonneg (mul_self_nonneg v.x) (mul_self_nonneg v.y))
    (mul_self_nonneg v.z) : (0:ℝ) ≤ v.x * v.x + v.y * v.y + v.z * v.z) with hlt | heq
  · exact hlt
  · exfalso
    apply h
    rw [Vec3.eq_zero_iff]
    refine ⟨?_, ?_, ?_⟩ <;> nlinarith [sq_nonneg v.x, sq_nonneg v.y, sq_nonneg v.z]

/-- C5: `Vec3::normalized` is total: a nonzero vector is mapped to a vector of
Euclidean length exactly 1 (the floating tolerance of the claim is exact over
`ℝ`), and any vector whose length is `≤ 0` — in particular the zero vector —
is mapped to the zero vector, so no NaN/infinity can arise. -/
theorem C5_normalized_total (v : Vec3) :
    (v ≠ Vec3.ZERO → (v.normalized).length = 1) ∧
    (v.length ≤ 0 → v.normalized = Vec3.ZERO) := by
  constructor
  · intro hv
    have hsq : 0 < v.length_squared := Vec3.length_squared_pos v hv
    have hlen : 0 < v.length := Real.sqrt_pos.mpr hsq
    have hlen2 : v.length * v.length = v.length_squared :=
      Real.mul_self_sqrt (le_of_lt hsq)
    rw [Vec3.normalized]
    simp only [not_le.mpr hlen, if_false]
    show Vec3.length ⟨v.x / v.length, v.y / v.length, v.z / v.length⟩ = 1
    rw [Vec3.length, Vec3.length_squared]
    have : v.x / v.length * (v.x / v.length) + v.y / v.length * (v.y / v.length) +
        v.z / v.length * (v.z / v.length) = 1 := by
      field_simp
      rw [hlen2, Vec3.length_squared]
    rw [this, Real.sqrt_one]
  · intro hle
    rw [Vec3.normalized]
    simp only [hle, if_true]

/-- C5 witness: the concrete nonzero vector `(3,4,0)` normalizes to length 1. -/
theorem C5_normalized_total_witness :
    (Vec3.mk 3 4 0).normalized.length = 1 := by
  have hne : Vec3.mk 3 4 0 ≠ Vec3.ZERO := by
    rw [Ne, Vec3.eq_zero_iff]
    norm_num
  exact (C5_normalized_total (Vec3.mk 3 4 0)).1 hne

/-- Bits helper: `or`-ing a multiple of `2^n` with a value below `2^n` is
addition (the bit ranges are disjoint). -/
theorem lor_pow_mul_add : ∀ (n a b : ℕ), b < 2^n → 2^n * a ||| b = 2^n * a + b := by
  intro n
  induction n with
  | zero =>
    intro a b hb
    interval_cases b
    simp
  | succ n ih =>
    intro a b hb
    have hsum := Nat.bodd_add_div2 b
    have hp : (2:ℕ) ^ (n+1) = 2 * 2^n := by ring
    have hd : Nat.div2 b < 2^n := by
      rw [hp] at hb
      cases hbb : Nat.bodd b <;> rw [hbb] at hsum <;> simp at hsum <;> omega
    have h1 : 2 ^ (n+1) * a = Nat.bit false (2^n * a) := by
      simp [Nat.bit_val]
      ring
    have hx : 2 ^ (n+1) * a = 2 * (2^n * a) := by ring
    conv_lhs => rw [h1, ← Nat.bit_decomp b, Nat.lor_bit]
    rw [Bool.false_or, ih a _ hd, hx]
    cases hbb : Nat.bodd b <;> rw [hbb] at hsum <;> simp at hsum <;>
      simp [Nat.bit_val] <;> omega

/-- Unpacking the three 8-bit fields of a packed 24-bit color recovers the
packed channel values; helper for C8. -/
theorem pack_fields (R G B : ℕ) (hR : R ≤ 255) (hG : G ≤ 255) (hB : B ≤ 255) :
    ((R <<< 16 ||| G <<< 8 ||| B) >>> 16) &&& 255 = R ∧
    ((R <<< 16 ||| G <<< 8 ||| B) >>> 8) &&& 255 = G ∧
    (R <<< 16 ||| G <<< 8 ||| B) &&& 255 = B := by
  have hpack : R <<< 16 ||| G <<< 8 ||| B = R * 65536 + G * 256 + B := by
    rw [Nat.shiftLeft_eq, Nat.shiftLeft_eq]
    have e1 : R * 2 ^ 16 ||| G * 2 ^ 8 = R * 65536 + G * 256 := by
      have := lor_pow_mul_add 16 R (G * 2 ^ 8) (by omega)
      rw [mul_comm] at this
      rw [this]
      norm_num
    rw [e1]
    have e2 : R * 65536 + G * 256 = 2 ^ 8 * (R * 256 + G) := by ring
    rw [e2, lor_pow_mul_add 8 _ B (by omega)]
  rw [hpack]
  have k16 := Nat.and_pow_two_sub_one_eq_mod ((R * 65536 + G * 256 + B) / 2 ^ 16) 8
  have k8 := Nat.and_pow_two_sub_one_eq_mod ((R * 65536 + G * 256 + B) / 2 ^ 8) 8
  have k0 := Nat.and_pow_two_sub_one_eq_mod (R * 65536 + G * 256 + B) 8
  simp only [Nat.shiftRight_eq_div_pow]
  norm_num at k16 k8 k0 ⊢
  rw [k16, k8, k0]
  refine ⟨?_, ?_, ?_⟩ <;> omega

/-- Rust's clamp is the identity on already-clamped input; helper for C8. -/
theorem clampR_eq_self (x : ℝ) (h0 : 0 ≤ x) (h1 : x ≤ 1) : clampR x 0 1 = x := by
  rw [clampR, if_neg (not_lt.mpr h0), if_neg (not_lt.mpr h1)]

/-- Floor of a channel scaled by 255 lies in `[0, 255]`; helper for C8. -/
theorem channel_floor_bounds (x : ℝ) (h0 : 0 ≤ x) (h1 : x ≤ 1) :
    0 ≤ ⌊x * 255⌋ ∧ ⌊x * 255⌋ ≤ 255 := by
  constructor
  · exact Int.floor_nonneg.mpr (by nlinarith)
  · rw [Int.floor_le_iff]
    push_cast
    nlinarith

/-- One channel of the round trip differs from the original by at most
`1/255`; helper for C8. -/
theorem channel_roundtrip (x : ℝ) (N : ℕ)
    (hN : (N : ℤ) = ⌊x * 255⌋) : |(N : ℝ) / 255 - x| ≤ 1 / 255 := by
  have hle : ((⌊x * 255⌋ : ℤ) : ℝ) ≤ x * 255 := Int.floor_le _
  have hlt : x * 255 < (⌊x * 255⌋ : ℤ) + 1 := Int.lt_floor_add_one _
  have hcast : (N : ℝ) = ((⌊x * 255⌋ : ℤ) : ℝ) := by
    rw [← hN]
    push_cast
    rfl
  rw [hcast]
  rw [abs_le]
  constructor <;> nlinarith

/-- C8: for a color whose channels all lie in `[0,1]`, the packed round trip
`Color.from_u32 (Color.to_u32 c)` reproduces every channel to within `1/255`. -/
theorem C8_color_roundtrip (c : Color)
    (hr0 : 0 ≤ c.r) (hr1 : c.r ≤ 1) (hg0 : 0 ≤ c.g) (hg1 : c.g ≤ 1)
    (hb0 : 0 ≤ c.b) (hb1 : c.b ≤ 1) :
    |(Color.from_u32 (Color.to_u32 c)).r - c.r| ≤ 1 / 255 ∧
    |(Color.from_u32 (Color.to_u32 c)).g - c.g| ≤ 1 / 255 ∧
    |(Color.from_u32 (Color.to_u32 c)).b - c.b| ≤ 1 / 255 := by
  have hR := channel_floor_bounds c.r hr0 hr1
  have hG := channel_floor_bounds c.g hg0 hg1
  have hB := channel_floor_bounds c.b hb0 hb1
  have hto : Color.to_u32 c =
      (⌊c.r * 255⌋.toNat <<< 16) ||| (⌊c.g * 255⌋.toNat <<< 8) ||| ⌊c.b * 255⌋.toNat := by
    rw [Color.to_u32, clampR_eq_self c.r hr0 hr1, clampR_eq_self c.g hg0 hg1,
      clampR_eq_self c.b hb0 hb1]
  have hfields := pack_fields ⌊c.r * 255⌋.toNat ⌊c.g * 255⌋.toNat ⌊c.b * 255⌋.toNat
    (by omega) (by omega) (by omega)
  rw [Color.from_u32, hto]
  refine ⟨?_, ?_, ?_⟩
  · show |((((⌊c.r * 255⌋.toNat <<< 16 ||| ⌊c.g * 255⌋.toNat <<< 8 ||| ⌊c.b * 255⌋.toNat)
      >>> 16) &&& 255 : ℕ) : ℝ) / 255 - c.r| ≤ 1 / 255
    rw [hfields.1]
    exact channel_roundtrip c.r _ (Int.toNat_of_nonneg hR.1)
  · show |((((⌊c.r * 255⌋.toNat <<< 16 ||| ⌊c.g * 255⌋.toNat <<< 8 ||| ⌊c.b * 255⌋.toNat)
      >>> 8) &&& 255 : ℕ) : ℝ) / 255 - c.g| ≤ 1 / 255
    rw [hfields.2.1]
    exact channel_roundtrip c.g _ (Int.toNat_of_nonneg hG.1)
  · show |(((⌊c.r * 255⌋.toNat <<< 16 ||| ⌊c.g * 255⌋.toNat <<< 8 ||| ⌊c.b * 255⌋.toNat)
      &&& 255 : ℕ) : ℝ) / 255 - c.b| ≤ 1 / 255
    rw [hfields.2.2]
    exact channel_roundtrip c.b _ (Int.toNat_of_nonneg hB.1)

/-- C8 witness: the round trip at the concrete in-range color `(1/2, 0, 1)`. -/
theorem C8_color_roundtrip_witness :
    |(Color.from_u32 (Color.to_u32 (Color.mk (1/2) 0 1))).r - (1/2 : ℝ)| ≤ 1 / 255 ∧
    |(Color.from_u32 (Color.to_u32 (Color.mk (1/2) 0 1))).g - (0 : ℝ)| ≤ 1 / 255 ∧
    |(Color.from_u32 (Color.to_u32 (Color.mk (1/2) 0 1))).b - (1 : ℝ)| ≤ 1 / 255 :=
  C8_color_roundtrip (Color.mk (1/2) 0 1) (by norm_num) (by norm_num) (by norm_num)
    (by norm_num) (by norm_num) (by norm_num)

/-- `Camera` from src/main.rs; only `position` is read by the renderer. -/
structure Camera where
  position : Vec3
  yaw : ℝ
  pitch : ℝ
  fov : ℝ

/-- `Light`: a single directional light. -/
structure Light where
  direction : Vec3
  color : Color
  intensity : ℝ

/-- `Material`: base color plus emissive scalar. -/
structure Material where
  color : Color
  emissive : ℝ

/-- `Mesh`: vertex positions, parallel normals, and triangle index triples. -/
structure Mesh where
  vertices : List Vec3
  normals : List Vec3
  indices : List (ℕ × ℕ × ℕ)

/-- `RenderInstance`: mesh + world transform + material. -/
structure RenderInstance where
  mesh : Mesh
  transform : Mat4
  material : Material

/-- The `Renderer` state the claims are about: resolution plus the flat
color (packed `u32`) and depth (`f32`) buffers. -/
structure Renderer where
  width : ℕ
  height : ℕ
  color : List ℕ
  depth : List ℝ

/-- `Renderer::project_point` (src/main.rs lines 692-707). -/
def Renderer.project_point (st : Renderer) (position : Vec3) (vp : Mat4) : Option Vec2 :=
  let clip := vp * Vec4.new position.x position.y position.z 1
  if |clip.w| < 0.001 then none
  else
    let inv_w := 1 / clip.w
    let ndc_x := clip.x * inv_w
    let ndc_y := clip.y * inv_w
    let ndc_z := clip.z * inv_w
    if ndc_z > 1 ∨ ndc_z < -1 then none
    else
      some (Vec2.new ((ndc_x * 0.5 + 0.5) * ((st.width : ℝ) - 1))
        ((1 - (ndc_y * 0.5 + 0.5)) * ((st.height : ℝ) - 1)))

/-- `VertexOut` from src/main.rs. -/
structure VertexOut where
  screen : Vec3
  world : Vec3
  normal : Vec3
  inv_w : ℝ

/-- The per-vertex body of `Renderer::draw_mesh` (src/main.rs lines 752-777):
world transform, clip, w/depth rejection, screen mapping, world normal. -/
def transformVertex (st : Renderer) (transform vp : Mat4) (position normal : Vec3) :
    Option VertexOut :=
  let world_pos := transform * Vec4.new position.x position.y position.z 1
  let world := world_pos.xyz
  let clip := vp * Vec4.new world.x world.y world.z 1
  if |clip.w| < 0.001 then none
  else
    let inv_w := 1 / clip.w
    let ndc_x := clip.x * inv_w
    let ndc_y := clip.y * inv_w
    let ndc_z := clip.z * inv_w
    if ndc_z > 1 ∨ ndc_z < -1 then none
    else
      let screen_x := (ndc_x * 0.5 + 0.5) * ((st.width : ℝ) - 1)
      let screen_y := (1 - (ndc_y * 0.5 + 0.5)) * ((st.height : ℝ) - 1)
      let normal_world := ((transform * Vec4.new normal.x normal.y normal.z 0).xyz).normalized
      some ⟨Vec3.new screen_x screen_y ndc_z, world, normal_world, inv_w⟩

/-- C4: `project_point` returns `none` exactly when the clip-space `w`
satisfies `|w| < 0.001` or the normalized depth `z/w` lies outside `[-1,1]`;
and on any world point obtained from a model-space point by the instance
transform it agrees (absence and screen x,y alike) with the vertex pipeline
of `draw_mesh` (`transformVertex`), whatever vertex normal that pipeline
carries. -/
theorem C4_project_point_consistent (st : Renderer) (p : Vec3) (vp : Mat4) :
    (Renderer.project_point st p vp = none ↔
      (|(vp * Vec4.new p.x p.y p.z 1).w| < 0.001 ∨
       (vp * Vec4.new p.x p.y p.z 1).z / (vp * Vec4.new p.x p.y p.z 1).w > 1 ∨
       (vp * Vec4.new p.x p.y p.z 1).z / (vp * Vec4.new p.x p.y p.z 1).w < -1)) ∧
    (∀ (T : Mat4) (q n : Vec3), p = (T * Vec4.new q.x q.y q.z 1).xyz →
      Option.map (fun v => (v.screen.x, v.screen.y)) (transformVertex st T vp q n) =
      Option.map (fun s => (s.x, s.y)) (Renderer.project_point st p vp)) := by
  constructor
  · rw [Renderer.project_point]
    by_cases hw : |(vp * Vec4.new p.x p.y p.z 1).w| < 0.001
    · simp [hw]
    · have hdiv : (vp * Vec4.new p.x p.y p.z 1).z * (1 / (vp * Vec4.new p.x p.y p.z 1).w) =
          (vp * Vec4.new p.x p.y p.z 1).z / (vp * Vec4.new p.x p.y p.z 1).w := by
        rw [mul_one_div]
      by_cases hz : (vp * Vec4.new p.x p.y p.z 1).z * (1 / (vp * Vec4.new p.x p.y p.z 1).w) > 1 ∨
          (vp * Vec4.new p.x p.y p.z 1).z * (1 / (vp * Vec4.new p.x p.y p.z 1).w) < -1
      · simp only [hw, if_false, hz, if_true]
        rw [hdiv] at hz
        simp [hw, hz]
      · simp only [hw, if_false, hz, if_false]
        rw [hdiv] at hz
        simp [hw, hz]
  · intro T q n hp
    subst hp
    rw [transformVertex, Renderer.project_point]
    by_cases hw : |(vp * Vec4.new (Vec4.xyz (T * Vec4.new q.x q.y q.z 1)).x
        (Vec4.xyz (T * Vec4.new q.x q.y q.z 1)).y
        (Vec4.xyz (T * Vec4.new q.x q.y q.z 1)).z 1).w| < 0.001
    · rw [if_pos hw, if_pos hw]
      rfl
    · rw [if_neg hw, if_neg hw]
      by_cases hz : (vp * Vec4.new (Vec4.xyz (T * Vec4.new q.x q.y q.z 1)).x
          (Vec4.xyz (T * Vec4.new q.x q.y q.z 1)).y
          (Vec4.xyz (T * Vec4.new q.x q.y q.z 1)).z 1).z *
          (1 / (vp * Vec4.new (Vec4.xyz (T * Vec4.new q.x q.y q.z 1)).x
            (Vec4.xyz (T * Vec4.new q.x q.y q.z 1)).y
            (Vec4.xyz (T * Vec4.new q.x q.y q.z 1)).z 1).w) > 1 ∨
          (vp * Vec4.new (Vec4.xyz (T * Vec4.new q.x q.y q.z 1)).x
            (Vec4.xyz (T * Vec4.new q.x q.y q.z 1)).y
            (Vec4.xyz (T * Vec4.new q.x q.y q.z 1)).z 1).z *
          (1 / (vp * Vec4.new (Vec4.xyz (T * Vec4.new q.x q.y q.z 1)).x
            (Vec4.xyz (T * Vec4.new q.x q.y q.z 1)).y
            (Vec4.xyz (T * Vec4.new q.x q.y q.z 1)).z 1).w) < -1
      · rw [if_pos hz, if_pos hz]
        rfl
      · rw [if_neg hz, if_neg hz]
        rfl

/-- Length of a `flatMap` whose pieces all have the same length. -/
theorem length_flatMap_const {α β : Type} (l : List α) (g : α → List β) (c : ℕ)
    (h : ∀ a, (g a).length = c) : (l.flatMap g).length = l.length * c := by
  induction l with
  | nil => simp
  | cons a t ih =>
    simp only [List.flatMap_cons, List.length_append, List.length_cons, h, ih]
    ring

/-- Vertex/normal list of `Mesh::uv_sphere` (src/main.rs lines 876-888):
`(rings+1)` rows of `(segments+1)` points of the spherical parametrization;
the same value is pushed to the normal list and the vertex list. -/
def uvSphereVertices (segments rings : ℕ) : List Vec3 :=
  (List.range (rings+1)).flatMap (fun (y : ℕ) =>
    (List.range (segments+1)).map (fun (x : ℕ) =>
      let v := (y : ℝ) / (rings : ℝ)
      let theta := v * Real.pi
      let u := (x : ℝ) / (segments : ℝ)
      let phi := u * (2 * Real.pi)
      let nx := Real.cos phi * Real.sin theta
      let ny := Real.cos theta
      let nz := Real.sin phi * Real.sin theta
      Vec3.new nx ny nz))

/-- Index list of `Mesh::uv_sphere` (src/main.rs lines 889-899): two triples
per quad cell, `stride = segments + 1`. -/
def uvSphereIndices (segments rings : ℕ) : List (ℕ × ℕ × ℕ) :=
  let stride := segments + 1
  (List.range rings).flatMap (fun (y : ℕ) =>
    (List.range segments).flatMap (fun (x : ℕ) =>
      let i0 := y * stride + x
      let i1 := i0 + 1
      let i2 := i0 + stride
      let i3 := i2 + 1
      [(i0, i2, i1), (i1, i2, i3)]))

/-- `Mesh::uv_sphere` (src/main.rs lines 872-905). For `rings = 0` or
`segments = 0` Rust computes `0.0/0.0` (NaN); over `ℝ` that division is 0,
which no counted claim depends on. -/
def Mesh.uv_sphere (segments rings : ℕ) : Mesh :=
  ⟨uvSphereVertices segments rings, uvSphereVertices segments rings,
   uvSphereIndices segments rings⟩

/-- Vertex list of `Mesh::ring` (src/main.rs lines 911-925): four vertices
(outer, inner, outer, inner) per angular step. -/
def ringVertices (inner_radius outer_radius : ℝ) (segments : ℕ) : List Vec3 :=
  (List.range (segments+1)).flatMap (fun (i : ℕ) =>
    let angle := ((i : ℝ) / (segments : ℝ)) * (2 * Real.pi)
    let c := Real.cos angle
    let s := Real.sin angle
    let outer := Vec3.new (c * outer_radius) 0 (s * outer_radius)
    let inner := Vec3.new (c * inner_radius) 0 (s * inner_radius)
    [outer, inner, outer, inner])

/-- Normal list of `Mesh::ring`: up, up, down, down per angular step. -/
def ringNormals (segments : ℕ) : List Vec3 :=
  (List.range (segments+1)).flatMap (fun _ =>
    [Vec3.UP, Vec3.UP, -Vec3.UP, -Vec3.UP])

/-- Index list of `Mesh::ring` (src/main.rs lines 926-936), `stride = 4`. -/
def ringIndices (segments : ℕ) : List (ℕ × ℕ × ℕ) :=
  (List.range segments).flatMap (fun (i : ℕ) =>
    let base := i * 4
    let next := base + 4
    let base_down := base + 2
    let next_down := next + 2
    [(base, next, base + 1), (base + 1, next, next + 1),
     (base_down, base_down + 1, next_down), (base_down + 1, next_down + 1, next_down)])

/-- `Mesh::ring` (src/main.rs lines 907-942). -/
def Mesh.ring (inner_radius outer_radius : ℝ) (segments : ℕ) : Mesh :=
  ⟨ringVertices inner_radius outer_radius segments, ringNormals segments,
   ringIndices segments⟩

/-- A point of the spherical parametrization has length 1; helper for C7. -/
theorem unit_vertex_length (a b : ℝ) :
    (Vec3.new (Real.cos a * Real.sin b) (Real.cos b) (Real.sin a * Real.sin b)).length = 1 := by
  have hsq : Real.cos a * Real.sin b * (Real.cos a * Real.sin b) + Real.cos b * Real.cos b +
      Real.sin a * Real.sin b * (Real.sin a * Real.sin b) = 1 := by
    linear_combination (Real.sin b)^2 * Real.sin_sq_add_cos_sq a + Real.sin_sq_add_cos_sq b
  dsimp only [Vec3.new, Vec3.length, Vec3.length_squared]
  rw [hsq, Real.sqrt_one]

/-- C7: for positive `segments` and `rings`, `uv_sphere` yields exactly
`(segments+1)*(rings+1)` vertices, `2*segments*rings` triangles, a normal
list identical to the vertex list, and every vertex at Euclidean distance 1
from the origin. -/
theorem C7_uv_sphere_counts (segments rings : ℕ) (hs : 0 < segments) (hr : 0 < rings) :
    (Mesh.uv_sphere segments rings).vertices.length = (segments+1) * (rings+1) ∧
    (Mesh.uv_sphere segments rings).indices.length = 2 * segments * rings ∧
    (Mesh.uv_sphere segments rings).normals = (Mesh.uv_sphere segments rings).vertices ∧
    ∀ v ∈ (Mesh.uv_sphere segments rings).vertices, v.length = 1 := by
  refine ⟨?_, ?_, rfl, ?_⟩
  · show (uvSphereVertices segments rings).length = (segments+1) * (rings+1)
    rw [uvSphereVertices, length_flatMap_const _ _ (segments+1)
      (fun y => by rw [List.length_map, List.length_range]), List.length_range]
    ring
  · show (uvSphereIndices segments rings).length = 2 * segments * rings
    rw [uvSphereIndices]
    rw [length_flatMap_const _ _ (segments * 2)
      (fun y => by
        rw [length_flatMap_const _ _ 2 (fun x => by simp), List.length_range]),
      List.length_range]
    ring
  · intro v hv
    have hv' : v ∈ uvSphereVertices segments rings := hv
    rw [uvSphereVertices] at hv'
    simp only [List.mem_flatMap, List.mem_map, List.mem_range] at hv'
    obtain ⟨y, hy, x, hx, rfl⟩ := hv'
    exact unit_vertex_length ((x : ℝ) / (segments : ℝ) * (2 * Real.pi))
      ((y : ℝ) / (rings : ℝ) * Real.pi)

/-- C7 witness: the sphere at the concrete positive arguments `(1,1)`. -/
theorem C7_uv_sphere_counts_witness :
    (Mesh.uv_sphere 1 1).vertices.length = (1+1) * (1+1) ∧
    (Mesh.uv_sphere 1 1).indices.length = 2 * 1 * 1 :=
  ⟨(C7_uv_sphere_counts 1 1 (by decide) (by decide)).1,
   (C7_uv_sphere_counts 1 1 (by decide) (by decide)).2.1⟩

/-- Rust's `char::is_whitespace`: the Unicode `White_Space` property
(U+0009-U+000D, U+0020, U+0085, U+00A0, U+1680, U+2000-U+200A, U+2028,
U+2029, U+202F, U+205F, U+3000). -/
def isRustWhitespace (c : Char) : Bool :=
  decide (c.val = 0x09 ∨ c.val = 0x0A ∨ c.val = 0x0B ∨ c.val = 0x0C ∨ c.val = 0x0D ∨
    c.val = 0x20 ∨ c.val = 0x85 ∨ c.val = 0xA0 ∨ c.val = 0x1680 ∨
    (0x2000 ≤ c.val ∧ c.val ≤ 0x200A) ∨ c.val = 0x2028 ∨ c.val = 0x2029 ∨
    c.val = 0x202F ∨ c.val = 0x205F ∨ c.val = 0x3000)

/-- Rust's `str::split_whitespace` on a list of characters: maximal runs of
characters that are not Unicode whitespace, empty tokens skipped. `acc` is
the current token, reversed. -/
def splitWsAux : List Char → List Char → List (List Char)
  | [], acc => if acc.isEmpty then [] else [acc.reverse]
  | c :: rest, acc =>
    if isRustWhitespace c then
      if acc.isEmpty then splitWsAux rest [] else acc.reverse :: splitWsAux rest []
    else splitWsAux rest (c :: acc)

/-- Whitespace tokenization of one line. -/
def splitWs (cs : List Char) : List (List Char) := splitWsAux cs []

/-- Decimal value of a digit list. -/
def digitsVal (cs : List Char) : ℕ :=
  cs.foldl (fun acc c => acc * 10 + (c.toNat - 48)) 0

/-- Model of Rust's `usize::from_str` (`"1".parse::<usize>()`): an optional
`+` sign, then one or more decimal digits, rejecting values above
`usize::MAX = 2^64 - 1`. -/
def parseUsize? (cs : List Char) : Option ℕ :=
  let ds := match cs with
    | '+' :: rest => rest
    | _ => cs
  if ds ≠ [] ∧ ds.all Char.isDigit ∧ digitsVal ds < 2^64 then some (digitsVal ds) else none

/-- The exponent suffix of a float literal, after the `e`/`E`: an optional
sign and one or more digits consuming the whole remainder. -/
def parseExp? (cs : List Char) : Option ℤ :=
  let sr : ℤ × List Char := match cs with
    | '+' :: r => (1, r)
    | '-' :: r => (-1, r)
    | r => (1, r)
  if ¬sr.2.isEmpty ∧ sr.2.all Char.isDigit then some (sr.1 * (digitsVal sr.2 : ℤ)) else none

/-- Model of Rust's `f32::from_str` (`"1.5".parse::<f32>()`) over `ℚ`,
acceptance-faithful to its documented grammar:
`Sign? ('inf' | 'infinity' | 'nan' | Number)` with the keyword forms
case-insensitive, `Number ::= (Digit+ | Digit+ '.' Digit* | Digit* '.'
Digit+) Exp?` (at least one mantissa digit), and
`Exp ::= ('e' | 'E') Sign? Digit+`. The value of a finite form is its exact
rational (f32 rounding is not modelled, like every scalar in this file); the
non-finite `inf`/`infinity`/`nan` forms have no rational value and are
mapped to 0 — the claims about the loader depend only on which tokens are
accepted, not on these values. -/
def parseF32? (cs : List Char) : Option ℚ :=
  let sr : ℚ × List Char := match cs with
    | '+' :: r => (1, r)
    | '-' :: r => (-1, r)
    | r => (1, r)
  let low := sr.2.map Char.toLower
  if low = ['i','n','f'] ∨ low = ['i','n','f','i','n','i','t','y'] ∨ low = ['n','a','n'] then
    some 0
  else
    let ip := sr.2.takeWhile Char.isDigit
    let rest2 := sr.2.drop ip.length
    match rest2 with
    | [] => if ip.isEmpty then none else some (sr.1 * (digitsVal ip : ℚ))
    | '.' :: rest3 =>
      let fp := rest3.takeWhile Char.isDigit
      let rest4 := rest3.drop fp.length
      if ip.isEmpty ∧ fp.isEmpty then none
      else
        let mant := sr.1 * ((digitsVal ip : ℚ) + (digitsVal fp : ℚ) / 10 ^ fp.length)
        match rest4 with
        | [] => some mant
        | c0 :: rest5 =>
          if c0 = 'e' ∨ c0 = 'E' then
            (parseExp? rest5).map (fun k => mant * (10 : ℚ) ^ k)
          else none
    | c0 :: rest3 =>
      if (c0 = 'e' ∨ c0 = 'E') ∧ ¬ip.isEmpty then
        (parseExp? rest3).map (fun k => (sr.1 * (digitsVal ip : ℚ)) * (10 : ℚ) ^ k)
      else none

/-- The `line.starts_with('v') && line.chars().nth(1) == Some(' ')` test of
`Mesh::from_obj`. -/
def isVertexLine (cs : List Char) : Bool :=
  cs.head? == some 'v' && cs[1]? == some ' '

/-- The `line.starts_with('f')` test of `Mesh::from_obj`. -/
def isFaceLine (cs : List Char) : Bool :=
  cs.head? == some 'f'

/-- The face-index tokens of a face line (src/main.rs lines 959-964): every
whitespace token after the keyword, cut at the first `/`, parsed as `usize`
with unparsable tokens silently dropped, then decremented with the wrapping
semantics of release-mode `v - 1` (an index token `0` wraps to `2^64 - 1`). -/
def faceTokens (cs : List Char) : List ℕ :=
  ((splitWs cs).drop 1).filterMap (fun chunk =>
    (parseUsize? (chunk.takeWhile (fun c => c ≠ '/'))).map
      (fun v => (v + 2^64 - 1) % 2^64))

/-- The line loop of `Mesh::from_obj` (src/main.rs lines 949-971):
accumulates vertex positions (over `ℚ`, the parsed literals) and fan
triangulated face index triples; a vertex line whose first three coordinate
tokens (`"0"` when missing) do not parse is a hard error. -/
def objParseLines : List (List Char) → List (ℚ × ℚ × ℚ) → List (ℕ × ℕ × ℕ) →
    Except Unit (List (ℚ × ℚ × ℚ) × List (ℕ × ℕ × ℕ))
  | [], ps, fs => .ok (ps, fs)
  | cs :: rest, ps, fs =>
    if isVertexLine cs then
      match parseF32? ((splitWs cs).getD 1 ['0']), parseF32? ((splitWs cs).getD 2 ['0']),
          parseF32? ((splitWs cs).getD 3 ['0']) with
      | some x, some y, some z => objParseLines rest (ps ++ [(x, y, z)]) fs
      | _, _, _ => .error ()
    else if isFaceLine cs then
      let face := faceTokens cs
      if 3 ≤ face.length then
        objParseLines rest ps (fs ++ (List.range (face.length - 2)).map (fun t =>
          (face.getD 0 0, face.getD (t+1) 0, face.getD (t+2) 0)))
      else objParseLines rest ps fs
    else objParseLines rest ps fs

/-- The normal-accumulation loop of `Mesh::from_obj` (src/main.rs lines
972-981): adds each triangle's flat normal into the three referenced vertex
normals, sequentially. Rust's `positions[tri[k]]` panics when an index is out
of bounds; the panic is modelled as a hard error. -/
def accumulateNormals : List (ℕ × ℕ × ℕ) → List Vec3 → List Vec3 → Except Unit (List Vec3)
  | [], _, normals => .ok normals
  | t :: rest, positions, normals =>
    if t.1 < positions.length ∧ t.2.1 < positions.length ∧ t.2.2 < positions.length then
      let a := positions.getD t.1 Vec3.ZERO
      let b := positions.getD t.2.1 Vec3.ZERO
      let c := positions.getD t.2.2 Vec3.ZERO
      let nrm := ((b - a).cross (c - a)).normalized
      let n1 := normals.set t.1 (normals.getD t.1 Vec3.ZERO + nrm)
      let n2 := n1.set t.2.1 (n1.getD t.2.1 Vec3.ZERO + nrm)
      let n3 := n2.set t.2.2 (n2.getD t.2.2 Vec3.ZERO + nrm)
      accumulateNormals rest positions n3
    else .error ()

/-- The mesh-assembly tail of `Mesh::from_obj` (src/main.rs lines 972-991):
positions cast to the real scalar model, normals accumulated and every
non-degenerate accumulated normal re-normalized. -/
def objAssemble (ps : List (ℚ × ℚ × ℚ)) (fs : List (ℕ × ℕ × ℕ)) : Except Unit Mesh :=
  let positions := ps.map (fun p => Vec3.new (p.1 : ℝ) (p.2.1 : ℝ) (p.2.2 : ℝ))
  match accumulateNormals fs positions (List.replicate positions.length Vec3.ZERO) with
  | .error e => .error e
  | .ok normals0 =>
    .ok ⟨positions, normals0.map (fun n => if n.length_squared > 0 then n.normalized else n), fs⟩

/-- `Mesh::from_obj` (src/main.rs lines 944-992) on the lines of the source
text (the `File::open` failure mode is outside this model). -/
def Mesh.from_obj (lines : List String) : Except Unit Mesh :=
  match objParseLines (lines.map String.data) [] [] with
  | .error e => .error e
  | .ok (ps, fs) => objAssemble ps fs

/-- One of the first three coordinate tokens of the line (`"0"` when absent)
is rejected by the numeric parser. -/
def hasBadVertexCoord (cs : List Char) : Bool :=
  (parseF32? ((splitWs cs).getD 1 ['0'])).isNone ||
  (parseF32? ((splitWs cs).getD 2 ['0'])).isNone ||
  (parseF32? ((splitWs cs).getD 3 ['0'])).isNone

/-- A vertex line with an unparsable coordinate token makes the line loop
fail, whatever has been accumulated; helper for C3. -/
theorem objParseLines_error :
    ∀ (ls : List (List Char)) (ps : List (ℚ × ℚ × ℚ)) (fs : List (ℕ × ℕ × ℕ)),
    (∃ cs ∈ ls, isVertexLine cs = true ∧ hasBadVertexCoord cs = true) →
    objParseLines ls ps fs = .error () := by
  intro ls
  induction ls with
  | nil =>
    intro ps fs h
    simp at h
  | cons cs rest ih =>
    intro ps fs h
    obtain ⟨cs0, hmem, hv, hbad⟩ := h
    rw [objParseLines]
    rcases List.mem_cons.mp hmem with heq | hmem0
    · subst heq
      rw [if_pos hv]
      cases e1 : parseF32? ((splitWs cs0).getD 1 ['0']) with
      | none => rfl
      | some x =>
        cases e2 : parseF32? ((splitWs cs0).getD 2 ['0']) with
        | none => rfl
        | some y =>
          cases e3 : parseF32? ((splitWs cs0).getD 3 ['0']) with
          | none => rfl
          | some z =>
            rw [hasBadVertexCoord, e1, e2, e3] at hbad
            simp at hbad
    · by_cases hv0 : isVertexLine cs = true
      · rw [if_pos hv0]
        cases e1 : parseF32? ((splitWs cs).getD 1 ['0']) with
        | none => rfl
        | some x =>
          cases e2 : parseF32? ((splitWs cs).getD 2 ['0']) with
          | none => rfl
          | some y =>
            cases e3 : parseF32? ((splitWs cs).getD 3 ['0']) with
            | none => rfl
            | some z => exact ih _ _ ⟨cs0, hmem0, hv, hbad⟩
      · rw [if_neg hv0]
        by_cases hf : isFaceLine cs = true
        · rw [if_pos hf]
          by_cases h3 : 3 ≤ (faceTokens cs).length
          · rw [if_pos h3]
            exact ih _ _ ⟨cs0, hmem0, hv, hbad⟩
          · rw [if_neg h3]
            exact ih _ _ ⟨cs0, hmem0, hv, hbad⟩
        · rw [if_neg hf]
          exact ih _ _ ⟨cs0, hmem0, hv, hbad⟩

/-- C3 counterexample: an input whose face line contains the unparsable
numeric token `x` — rejected by both numeric parsers and present as a token
of that line — is loaded successfully (the bad face token is silently
dropped and the truncated face, now 2 vertices, is skipped), so the claim
that every malformed vertex-or-face numeric token is a hard error is false. -/
theorem C3_counterexample :
    (Mesh.from_obj [r"v 0 0 0", r"v 1 0 0", r"v 0 1 0", r"f 1 2 x"]).isOk = true ∧
    parseUsize? [ 'x' ] = none ∧ parseF32? [ 'x' ] = none ∧
    [ 'x' ] ∈ splitWs (r"f 1 2 x").data := by
  refine ⟨by decide, by decide, by decide, by decide⟩

/-- C3 as amended: an unparsable numeric token among the first three
coordinate tokens of a vertex line (`v` followed by a space) is a hard,
propagated error of `Mesh::from_obj`; malformed face-index tokens are
silently filtered out instead. -/
theorem C3_vertex_token_error (lines : List String)
    (h : ∃ s ∈ lines, isVertexLine s.data = true ∧ hasBadVertexCoord s.data = true) :
    Mesh.from_obj lines = .error () := by
  have herr : objParseLines (lines.map String.data) [] [] = .error () := by
    apply objParseLines_error
    obtain ⟨s, hs1, hs2⟩ := h
    exact ⟨s.data, List.mem_map_of_mem _ hs1, hs2⟩
  rw [Mesh.from_obj, herr]

/-- C3 witness: a concrete file whose single vertex line has the malformed
coordinate token `x` is rejected. -/
theorem C3_vertex_token_error_witness :
    Mesh.from_obj [r"v x 0 0"] = .error () :=
  C3_vertex_token_error [r"v x 0 0"] (by decide)

/-- Vertex count of the sphere; helper shared by C6 and C7. -/
theorem uvSphereVertices_length (segments rings : ℕ) :
    (uvSphereVertices segments rings).length = (rings+1) * (segments+1) := by
  rw [uvSphereVertices, length_flatMap_const _ _ (segments+1)
    (fun y => by rw [List.length_map, List.length_range]), List.length_range]

/-- Every sphere index triple is bounded by the vertex count; helper for C6. -/
theorem uvSphereIndices_bounded (segments rings : ℕ) (t : ℕ × ℕ × ℕ)
    (ht : t ∈ uvSphereIndices segments rings) :
    t.1 < (rings+1) * (segments+1) ∧ t.2.1 < (rings+1) * (segments+1) ∧
    t.2.2 < (rings+1) * (segments+1) := by
  rw [uvSphereIndices] at ht
  simp only [List.mem_flatMap, List.mem_range, List.mem_cons,
    List.mem_singleton, List.not_mem_nil, or_false] at ht
  obtain ⟨y, hy, x, hx, htt⟩ := ht
  have hmul : (y+1) * (segments+1) ≤ rings * (segments+1) :=
    Nat.mul_le_mul_right (segments+1) hy
  have he1 : (y+1) * (segments+1) = y * (segments+1) + (segments+1) := by ring
  have he2 : (rings+1) * (segments+1) = rings * (segments+1) + (segments+1) := by ring
  rcases htt with rfl | rfl <;> refine ⟨?_, ?_, ?_⟩ <;> simp only [] <;> omega

/-- Vertex count of the ring; helper for C6. -/
theorem ringVertices_length (inner_radius outer_radius : ℝ) (segments : ℕ) :
    (ringVertices inner_radius outer_radius segments).length = (segments+1) * 4 := by
  rw [ringVertices, length_flatMap_const _ _ 4 (fun i => by rfl), List.length_range]

/-- Normal count of the ring; helper for C6. -/
theorem ringNormals_length (segments : ℕ) :
    (ringNormals segments).length = (segments+1) * 4 := by
  rw [ringNormals, length_flatMap_const _ _ 4 (fun i => by rfl), List.length_range]

/-- Every ring index triple is bounded by the vertex count; helper for C6. -/
theorem ringIndices_bounded (segments : ℕ) (t : ℕ × ℕ × ℕ)
    (ht : t ∈ ringIndices segments) :
    t.1 < (segments+1) * 4 ∧ t.2.1 < (segments+1) * 4 ∧ t.2.2 < (segments+1) * 4 := by
  rw [ringIndices] at ht
  simp only [List.mem_flatMap, List.mem_range, List.mem_cons,
    List.mem_singleton, List.not_mem_nil, or_false] at ht
  obtain ⟨i, hi, htt⟩ := ht
  rcases htt with rfl | rfl | rfl | rfl <;> refine ⟨?_, ?_, ?_⟩ <;> simp only [] <;> omega

/-- A successful run of the normal-accumulation loop keeps the normal-list
length and certifies that every triangle index is in bounds; helper for C6. -/
theorem accumulateNormals_ok :
    ∀ (fs : List (ℕ × ℕ × ℕ)) (positions ns out : List Vec3),
    accumulateNormals fs positions ns = .ok out →
    out.length = ns.length ∧
    ∀ t ∈ fs, t.1 < positions.length ∧ t.2.1 < positions.length ∧
      t.2.2 < positions.length := by
  intro fs
  induction fs with
  | nil =>
    intro ps ns out h
    rw [accumulateNormals] at h
    simp only [Except.ok.injEq] at h
    subst h
    exact ⟨rfl, by simp⟩
  | cons t rest ih =>
    intro ps ns out h
    rw [accumulateNormals] at h
    by_cases hb : t.1 < ps.length ∧ t.2.1 < ps.length ∧ t.2.2 < ps.length
    · rw [if_pos hb] at h
      have hih := ih ps _ out h
      refine ⟨by rw [hih.1]; simp, ?_⟩
      intro t0 ht0
      rcases List.mem_cons.mp ht0 with rfl | h0
      · exact hb
      · exact hih.2 t0 h0
    · rw [if_neg hb] at h
      simp at h

/-- A successfully assembled OBJ mesh satisfies the invariants; helper
for C6. -/
theorem objAssemble_ok (ps : List (ℚ × ℚ × ℚ)) (fs : List (ℕ × ℕ × ℕ)) (m : Mesh)
    (h : objAssemble ps fs = .ok m) :
    m.normals.length = m.vertices.length ∧
    ∀ t ∈ m.indices, t.1 < m.vertices.length ∧ t.2.1 < m.vertices.length ∧
      t.2.2 < m.vertices.length := by
  rw [objAssemble] at h
  cases e2 : accumulateNormals fs (ps.map (fun p => Vec3.new (p.1 : ℝ) (p.2.1 : ℝ) (p.2.2 : ℝ)))
      (List.replicate (ps.map (fun p => Vec3.new (p.1 : ℝ) (p.2.1 : ℝ) (p.2.2 : ℝ))).length
        Vec3.ZERO) with
  | error e =>
    rw [e2] at h
    simp at h
  | ok normals0 =>
    rw [e2] at h
    simp only [Except.ok.injEq] at h
    subst h
    have hacc := accumulateNormals_ok fs _ _ _ e2
    constructor
    · show (normals0.map _).length = _
      rw [List.length_map, hacc.1, List.length_replicate]
    · intro t ht
      exact hacc.2 t ht

/-- C6: every mesh the program builds — any `uv_sphere`, any `ring`, and any
mesh a successful `from_obj` returns — has a normal list exactly as long as
its vertex list, and all three indices of every triangle strictly below the
vertex count. -/
theorem C6_mesh_invariants :
    (∀ segments rings : ℕ,
      (Mesh.uv_sphere segments rings).normals.length =
        (Mesh.uv_sphere segments rings).vertices.length ∧
      ∀ t ∈ (Mesh.uv_sphere segments rings).indices,
        t.1 < (Mesh.uv_sphere segments rings).vertices.length ∧
        t.2.1 < (Mesh.uv_sphere segments rings).vertices.length ∧
        t.2.2 < (Mesh.uv_sphere segments rings).vertices.length) ∧
    (∀ (inner_radius outer_radius : ℝ) (segments : ℕ),
      (Mesh.ring inner_radius outer_radius segments).normals.length =
        (Mesh.ring inner_radius outer_radius segments).vertices.length ∧
      ∀ t ∈ (Mesh.ring inner_radius outer_radius segments).indices,
        t.1 < (Mesh.ring inner_radius outer_radius segments).vertices.length ∧
        t.2.1 < (Mesh.ring inner_radius outer_radius segments).vertices.length ∧
        t.2.2 < (Mesh.ring inner_radius outer_radius segments).vertices.length) ∧
    (∀ (lines : List String) (m : Mesh), Mesh.from_obj lines = .ok m →
      m.normals.length = m.vertices.length ∧
      ∀ t ∈ m.indices, t.1 < m.vertices.length ∧ t.2.1 < m.vertices.length ∧
        t.2.2 < m.vertices.length) := by
  refine ⟨?_, ?_, ?_⟩
  · intro segments rings
    refine ⟨rfl, ?_⟩
    intro t ht
    have hb := uvSphereIndices_bounded segments rings t ht
    show t.1 < (uvSphereVertices segments rings).length ∧
      t.2.1 < (uvSphereVertices segments rings).length ∧
      t.2.2 < (uvSphereVertices segments rings).length
    rw [uvSphereVertices_length]
    exact hb
  · intro inner_radius outer_radius segments
    constructor
    · show (ringNormals segments).length = (ringVertices inner_radius outer_radius segments).length
      rw [ringNormals_length, ringVertices_length]
    · intro t ht
      have hb := ringIndices_bounded segments t ht
      show t.1 < (ringVertices inner_radius outer_radius segments).length ∧
        t.2.1 < (ringVertices inner_radius outer_radius segments).length ∧
        t.2.2 < (ringVertices inner_radius outer_radius segments).length
      rw [ringVertices_length]
      exact hb
  · intro lines m h
    rw [Mesh.from_obj] at h
    cases e1 : objParseLines (lines.map String.data) [] [] with
    | error e =>
      rw [e1] at h
      simp at h
    | ok pf =>
      rw [e1] at h
      exact objAssemble_ok pf.1 pf.2 m h

/-- C6 witness: instantiated at the concrete sphere `(1,1)` (with its first
index triple), the concrete ring `(1,2,1)`, and the mesh loaded from an
empty file. -/
theorem C6_mesh_invariants_witness :
    ((Mesh.uv_sphere 1 1).normals.length = (Mesh.uv_sphere 1 1).vertices.length) ∧
    ((0, 2, 1).1 < (Mesh.uv_sphere 1 1).vertices.length ∧
     (0, 2, 1).2.1 < (Mesh.uv_sphere 1 1).vertices.length ∧
     (0, 2, 1).2.2 < (Mesh.uv_sphere 1 1).vertices.length) ∧
    ((Mesh.ring 1 2 1).normals.length = (Mesh.ring 1 2 1).vertices.length) ∧
    ((Mesh.mk [] [] []).normals.length = (Mesh.mk [] [] []).vertices.length) :=
  ⟨(C6_mesh_invariants.1 1 1).1,
   (C6_mesh_invariants.1 1 1).2 (0, 2, 1) (by decide),
   (C6_mesh_invariants.2.1 1 2 1).1,
   (C6_mesh_invariants.2.2 [] (Mesh.mk [] [] []) rfl).1⟩

/-- The 2D edge function `edge` (src/main.rs lines 860-862). -/
def edge (a b c : Vec3) : ℝ :=
  (c.x - a.x) * (b.y - a.y) - (c.y - a.y) * (b.x - a.x)

/-- Flat buffer index `y as usize * self.width + x as usize` for in-range
(nonnegative) pixel coordinates. -/
def pixelIndex (width : ℕ) (x y : ℤ) : ℕ := y.toNat * width + x.toNat

/-- The sign test of the rasterizer inner loop (src/main.rs line 825): the
pixel center is covered only when the three edge values are all strictly
negative or all strictly positive. -/
def insideSign (v0 v1 v2 : VertexOut) (x y : ℤ) : Prop :=
  let px := (x : ℝ) + 0.5
  let py := (y : ℝ) + 0.5
  let w0 := edge v1.screen v2.screen (Vec3.new px py 0)
  let w1 := edge v2.screen v0.screen (Vec3.new px py 0)
  let w2 := edge v0.screen v1.screen (Vec3.new px py 0)
  (w0 < 0 ∧ w1 < 0 ∧ w2 < 0) ∨ (w0 > 0 ∧ w1 > 0 ∧ w2 > 0)

instance (v0 v1 v2 : VertexOut) (x y : ℤ) : Decidable (insideSign v0 v1 v2 x y) := by
  rw [insideSign]
  exact inferInstance

/-- The body of the rasterizer inner loop for one pixel (src/main.rs lines
820-854): sign test, barycentric normalization, `w_sum` guard, depth mapping,
depth test, shading, and the two buffer writes. -/
def processPixel (v0 v1 v2 : VertexOut) (material : Material) (light : Light)
    (area : ℝ) (st : Renderer) (p : ℤ × ℤ) : Renderer :=
  let x := p.1
  let y := p.2
  let px := (x : ℝ) + 0.5
  let py := (y : ℝ) + 0.5
  let w0 := edge v1.screen v2.screen (Vec3.new px py 0)
  let w1 := edge v2.screen v0.screen (Vec3.new px py 0)
  let w2 := edge v0.screen v1.screen (Vec3.new px py 0)
  if (w0 < 0 ∧ w1 < 0 ∧ w2 < 0) ∨ (w0 > 0 ∧ w1 > 0 ∧ w2 > 0) then
    let w0n := w0 / area
    let w1n := w1 / area
    let w2n := w2 / area
    let w_sum := v0.inv_w * w0n + v1.inv_w * w1n + v2.inv_w * w2n
    if w_sum ≤ 0 then st
    else
      let ndc_depth := (v0.screen.z * v0.inv_w * w0n + v1.screen.z * v1.inv_w * w1n +
        v2.screen.z * v2.inv_w * w2n) / w_sum
      let depth := ndc_depth * 0.5 + 0.5
      let idx := pixelIndex st.width x y
      if depth ≥ st.depth.getD idx 0 then st
      else
        let normal := ((v0.normal * (v0.inv_w * w0n) + v1.normal * (v1.inv_w * w1n) +
          v2.normal * (v2.inv_w * w2n)) / w_sum).normalized
        let diffuse := max (normal.dot (-light.direction)) 0
        let ambient := (0.2 : ℝ)
        let shaded := material.color * (ambient + diffuse * light.intensity) +
          light.color * material.emissive
        Renderer.mk st.width st.height (st.color.set idx shaded.to_u32)
          (st.depth.set idx depth)
  else st

/-- The inclusive integer range `lo..=hi` of the rasterizer loops. -/
def intRange (lo hi : ℤ) : List ℤ :=
  (List.range (hi + 1 - lo).toNat).map (fun (k : ℕ) => lo + k)

/-- `Renderer::rasterize_triangle` (src/main.rs lines 799-857): clamped
bounding box, the empty/degenerate early returns, and the per-pixel loop. -/
def Renderer.rasterize_triangle (st : Renderer) (v0 v1 v2 : VertexOut)
    (material : Material) (light : Light) : Renderer :=
  let min_x := truncToInt (max (⌊min (min v0.screen.x v1.screen.x) v2.screen.x⌋ : ℝ) 0)
  let max_x := truncToInt (min (⌈max (max v0.screen.x v1.screen.x) v2.screen.x⌉ : ℝ)
    ((st.width : ℝ) - 1))
  let min_y := truncToInt (max (⌊min (min v0.screen.y v1.screen.y) v2.screen.y⌋ : ℝ) 0)
  let max_y := truncToInt (min (⌈max (max v0.screen.y v1.screen.y) v2.screen.y⌉ : ℝ)
    ((st.height : ℝ) - 1))
  if min_x ≥ max_x ∨ min_y ≥ max_y then st
  else
    let area := edge v0.screen v1.screen v2.screen
    if |area| < 0.0001 then st
    else
      ((intRange min_y max_y).flatMap (fun (y : ℤ) =>
        (intRange min_x max_x).map (fun (x : ℤ) => (x, y)))).foldl
        (processPixel v0 v1 v2 material light area) st

/-- The loop of `Renderer::draw_line` (src/main.rs lines 719-735), with
explicit fuel; the fuel passed by `draw_line` (`dx - dy + 1` steps, since
`dx ≥ 0 ≥ dy`) is enough for the Bresenham walk to reach `(x1, y1)`. -/
def drawLineLoop (x1 y1 dx dy sx sy : ℤ) (color : Color) :
    ℕ → ℤ → ℤ → ℤ → Renderer → Renderer
  | 0, _, _, _, st => st
  | fuel+1, x0, y0, err, st =>
    let st1 := if 0 ≤ x0 ∧ x0 < (st.width : ℤ) ∧ 0 ≤ y0 ∧ y0 < (st.height : ℤ) then
      Renderer.mk st.width st.height
        (st.color.set (pixelIndex st.width x0 y0) color.to_u32) st.depth
    else st
    if x0 = x1 ∧ y0 = y1 then st1
    else
      let e2 := 2 * err
      let err1 := if e2 ≥ dy then err + dy else err
      let x0n := if e2 ≥ dy then x0 + sx else x0
      let err2 := if e2 ≤ dx then err1 + dx else err1
      let y0n := if e2 ≤ dx then y0 + sy else y0
      drawLineLoop x1 y1 dx dy sx sy color fuel x0n y0n err2 st1

/-- `Renderer::draw_line` (src/main.rs lines 709-736): endpoints truncated to
integers, then the Bresenham walk; single pixels, bounds-checked, no depth. -/
def Renderer.draw_line (st : Renderer) (start finish : Vec2) (color : Color) : Renderer :=
  let x0 := truncToInt start.x
  let y0 := truncToInt start.y
  let x1 := truncToInt finish.x
  let y1 := truncToInt finish.y
  let dx := |x1 - x0|
  let sx : ℤ := if x0 < x1 then 1 else -1
  let dy := -|y1 - y0|
  let sy : ℤ := if y0 < y1 then 1 else -1
  let err := dx + dy
  drawLineLoop x1 y1 dx dy sx sy color (dx.toNat + (-dy).toNat + 1) x0 y0 err st

/-- Reading a freshly set cell; helper for C9. -/
theorem getD_set_self {α : Type} (l : List α) (i : ℕ) (v d : α) (h : i < l.length) :
    (l.set i v).getD i d = v := by
  simp [List.getD, List.getElem?_set_eq_of_lt v h]

/-- Reading any other cell after a set; helper for C9. -/
theorem getD_set_ne {α : Type} (l : List α) (i j : ℕ) (v d : α) (h : i ≠ j) :
    (l.set i v).getD j d = l.getD j d := by
  simp [List.getD, List.getElem?_set_ne h]

/-- The packed color the scenario writes. -/
def whitePx : ℕ := (Color.mk 1 1 1).to_u32

/-- The ten writes of the scenario, in order; helper for C9. -/
def setWhite10 (c : List ℕ) : List ℕ :=
  (((((((((c.set 0 whitePx).set 1 whitePx).set 2 whitePx).set 3 whitePx).set 4 whitePx).set 5 whitePx).set 6 whitePx).set 7 whitePx).set 8 whitePx).set 9 whitePx

/-- Concrete run of the Bresenham walk from `(0,0)` to `(9,0)` on a 10×10
buffer: the ten cells `0..9` of the color buffer are written in order and
nothing else changes; helper for C9. -/
theorem draw_line_horizontal_eval (c : List ℕ) (d : List ℝ) :
    (Renderer.mk 10 10 c d).draw_line (Vec2.new 0 0) (Vec2.new 9 0) (Color.mk 1 1 1) =
    Renderer.mk 10 10 (setWhite10 c) d := by
  norm_num [Renderer.draw_line, drawLineLoop, truncToInt, pixelIndex, Vec2.new,
    Int.toNat_ofNat, setWhite10, whitePx]
  simp

/-- C9: on a 10×10 buffer, `draw_line((0,0),(9,0),white)` leaves the depth
buffer untouched, writes the packed white value to exactly the color cells
`(0,0)..(9,0)` (flat indices `0..9`), and leaves every other color cell
unchanged. -/
theorem C9_draw_line_horizontal (c : List ℕ) (d : List ℝ) (hc : c.length = 100) :
    ((Renderer.mk 10 10 c d).draw_line (Vec2.new 0 0) (Vec2.new 9 0)
      (Color.mk 1 1 1)).depth = d ∧
    (∀ i : ℕ, i < 10 →
      ((Renderer.mk 10 10 c d).draw_line (Vec2.new 0 0) (Vec2.new 9 0)
        (Color.mk 1 1 1)).color.getD i 0 = (Color.mk 1 1 1).to_u32) ∧
    (∀ i : ℕ, 10 ≤ i →
      ((Renderer.mk 10 10 c d).draw_line (Vec2.new 0 0) (Vec2.new 9 0)
        (Color.mk 1 1 1)).color.getD i 0 = c.getD i 0) := by
  rw [draw_line_horizontal_eval c d]
  refine ⟨rfl, ?_, ?_⟩
  · intro i hi
    show (setWhite10 c).getD i 0 = whitePx
    rw [setWhite10]
    interval_cases i <;>
      simp [getD_set_ne, getD_set_self, List.length_set, hc]
  · intro i hi
    show (setWhite10 c).getD i 0 = c.getD i 0
    rw [setWhite10]
    rw [getD_set_ne _ 9 i _ _ (by omega), getD_set_ne _ 8 i _ _ (by omega),
      getD_set_ne _ 7 i _ _ (by omega), getD_set_ne _ 6 i _ _ (by omega),
      getD_set_ne _ 5 i _ _ (by omega), getD_set_ne _ 4 i _ _ (by omega),
      getD_set_ne _ 3 i _ _ (by omega), getD_set_ne _ 2 i _ _ (by omega),
      getD_set_ne _ 1 i _ _ (by omega), getD_set_ne _ 0 i _ _ (by omega)]

/-- C9 witness: the scenario run from the concrete all-zero 10×10 buffers. -/
theorem C9_draw_line_horizontal_witness :
    ((Renderer.mk 10 10 (List.replicate 100 0) (List.replicate 100 (0:ℝ))).draw_line
      (Vec2.new 0 0) (Vec2.new 9 0) (Color.mk 1 1 1)).depth = List.replicate 100 (0:ℝ) ∧
    (∀ i : ℕ, i < 10 →
      ((Renderer.mk 10 10 (List.replicate 100 0) (List.replicate 100 (0:ℝ))).draw_line
        (Vec2.new 0 0) (Vec2.new 9 0) (Color.mk 1 1 1)).color.getD i 0 =
        (Color.mk 1 1 1).to_u32) ∧
    (∀ i : ℕ, 10 ≤ i →
      ((Renderer.mk 10 10 (List.replicate 100 0) (List.replicate 100 (0:ℝ))).draw_line
        (Vec2.new 0 0) (Vec2.new 9 0) (Color.mk 1 1 1)).color.getD i 0 =
        (List.replicate 100 0).getD i 0) :=
  C9_draw_line_horizontal (List.replicate 100 0) (List.replicate 100 (0:ℝ)) (by simp)

/-- Relation between a starting renderer state and a later one within one
`rasterize_triangle` call: buffer lengths are unchanged, every depth cell is
non-increasing, and a cell whose color or depth changed had its depth
strictly decreased. -/
def bufMono (orig cur : Renderer) : Prop :=
  cur.color.length = orig.color.length ∧
  cur.depth.length = orig.depth.length ∧
  ∀ idx : ℕ,
    cur.depth.getD idx 0 ≤ orig.depth.getD idx 0 ∧
    ((cur.color.getD idx 0 = orig.color.getD idx 0 ∧
      cur.depth.getD idx 0 = orig.depth.getD idx 0) ∨
     cur.depth.getD idx 0 < orig.depth.getD idx 0)

/-- `bufMono` is reflexive. -/
theorem bufMono_refl (st : Renderer) : bufMono st st :=
  ⟨rfl, rfl, fun _ => ⟨le_refl _, Or.inl ⟨rfl, rfl⟩⟩⟩

/-- `bufMono` composes. -/
theorem bufMono_trans {a b c : Renderer} (h1 : bufMono a b) (h2 : bufMono b c) :
    bufMono a c := by
  refine ⟨h2.1.trans h1.1, h2.2.1.trans h1.2.1, fun idx => ?_⟩
  obtain ⟨hle1, hd1⟩ := h1.2.2 idx
  obtain ⟨hle2, hd2⟩ := h2.2.2 idx
  refine ⟨hle2.trans hle1, ?_⟩
  rcases hd2 with ⟨hc2, he2⟩ | hlt2
  · rcases hd1 with ⟨hc1, he1⟩ | hlt1
    · exact Or.inl ⟨hc2.trans hc1, he2.trans he1⟩
    · exact Or.inr (he2 ▸ hlt1)
  · exact Or.inr (lt_of_lt_of_le hlt2 hle1)

/-- One pixel step of the rasterizer either leaves the state unchanged or
writes one cell whose depth strictly decreases; helper for C1. -/
theorem processPixel_mono (v0 v1 v2 : VertexOut) (material : Material) (light : Light)
    (area : ℝ) (st : Renderer) (p : ℤ × ℤ) (hlen : st.color.length = st.depth.length) :
    bufMono st (processPixel v0 v1 v2 material light area st p) := by
  rw [processPixel]
  dsimp only
  split_ifs with h1 h2 h3
  · exact bufMono_refl st
  · exact bufMono_refl st
  · refine ⟨by simp, by simp, fun i => ?_⟩
    by_cases hi : i = pixelIndex st.width p.1 p.2
    · subst hi
      by_cases hlt : pixelIndex st.width p.1 p.2 < st.depth.length
      · show (st.depth.set _ _).getD _ 0 ≤ _ ∧ _
        rw [getD_set_self st.depth (pixelIndex st.width p.1 p.2) _ 0 hlt]
        have hstrict := not_le.mp h3
        exact ⟨le_of_lt hstrict, Or.inr hstrict⟩
      · show (st.depth.set _ _).getD _ 0 ≤ _ ∧ _
        rw [List.set_eq_of_length_le (not_lt.mp hlt)]
        refine ⟨le_refl _, Or.inl ⟨?_, rfl⟩⟩
        show (st.color.set _ _).getD _ 0 = _
        rw [List.set_eq_of_length_le (by rw [hlen]; exact not_lt.mp hlt)]
    · have hne : pixelIndex st.width p.1 p.2 ≠ i := fun h => hi h.symm
      show (st.depth.set _ _).getD i 0 ≤ _ ∧ _
      rw [getD_set_ne _ _ _ _ _ hne]
      refine ⟨le_refl _, Or.inl ⟨?_, rfl⟩⟩
      show (st.color.set _ _).getD i 0 = _
      rw [getD_set_ne _ _ _ _ _ hne]
  · exact bufMono_refl st

/-- Folding the pixel step over any pixel list preserves `bufMono`; helper
for C1. -/
theorem foldPixels_mono (v0 v1 v2 : VertexOut) (material : Material) (light : Light)
    (area : ℝ) :
    ∀ (l : List (ℤ × ℤ)) (st : Renderer), st.color.length = st.depth.length →
    bufMono st (l.foldl (processPixel v0 v1 v2 material light area) st) := by
  intro l
  induction l with
  | nil => exact fun st _ => bufMono_refl st
  | cons p t ih =>
    intro st hlen
    rw [List.foldl_cons]
    have h1 := processPixel_mono v0 v1 v2 material light area st p hlen
    have hlen2 : (processPixel v0 v1 v2 material light area st p).color.length =
        (processPixel v0 v1 v2 material light area st p).depth.length := by
      rw [h1.1, h1.2.1, hlen]
    exact bufMono_trans h1 (ih _ hlen2)

/-- C1: over one `rasterize_triangle` call on a well-formed state (color and
depth buffers of equal length), every depth cell is non-increasing, and a
cell whose packed color or depth changed at all had its depth strictly
decreased — so a pixel is written only when the incoming mapped depth is
strictly smaller, an equal-or-greater depth leaves both buffers unchanged,
and the earlier write wins a depth tie. -/
theorem C1_depth_test_strict (st : Renderer) (v0 v1 v2 : VertexOut) (material : Material)
    (light : Light) (hlen : st.color.length = st.depth.length) (idx : ℕ) :
    (st.rasterize_triangle v0 v1 v2 material light).depth.getD idx 0 ≤
      st.depth.getD idx 0 ∧
    (((st.rasterize_triangle v0 v1 v2 material light).color.getD idx 0 =
        st.color.getD idx 0 ∧
      (st.rasterize_triangle v0 v1 v2 material light).depth.getD idx 0 =
        st.depth.getD idx 0) ∨
     (st.rasterize_triangle v0 v1 v2 material light).depth.getD idx 0 <
       st.depth.getD idx 0) := by
  rw [Renderer.rasterize_triangle]
  dsimp only
  split_ifs with h1 h2
  · exact ⟨le_refl _, Or.inl ⟨rfl, rfl⟩⟩
  · exact ⟨le_refl _, Or.inl ⟨rfl, rfl⟩⟩
  · exact (foldPixels_mono v0 v1 v2 material light _ _ st hlen).2.2 idx

/-- C1 witness: instantiated on a concrete well-formed 2×2 state and a
concrete triangle. -/
theorem C1_depth_test_strict_witness :
    ((Renderer.mk 2 2 (List.replicate 4 0) (List.replicate 4 (1:ℝ))).rasterize_triangle
      (VertexOut.mk (Vec3.new 0 0 0) (Vec3.new 0 0 0) (Vec3.new 0 0 1) 1)
      (VertexOut.mk (Vec3.new 1 0 0) (Vec3.new 1 0 0) (Vec3.new 0 0 1) 1)
      (VertexOut.mk (Vec3.new 0 1 0) (Vec3.new 0 1 0) (Vec3.new 0 0 1) 1)
      (Material.mk (Color.mk 1 1 1) 0)
      (Light.mk (Vec3.new 0 0 (-1)) (Color.mk 1 1 1) 1)).depth.getD 0 0 ≤
      (List.replicate 4 (1:ℝ)).getD 0 0 :=
  (C1_depth_test_strict (Renderer.mk 2 2 (List.replicate 4 0) (List.replicate 4 (1:ℝ)))
    (VertexOut.mk (Vec3.new 0 0 0) (Vec3.new 0 0 0) (Vec3.new 0 0 1) 1)
    (VertexOut.mk (Vec3.new 1 0 0) (Vec3.new 1 0 0) (Vec3.new 0 0 1) 1)
    (VertexOut.mk (Vec3.new 0 1 0) (Vec3.new 0 1 0) (Vec3.new 0 0 1) 1)
    (Material.mk (Color.mk 1 1 1) 0)
    (Light.mk (Vec3.new 0 0 (-1)) (Color.mk 1 1 1) 1) (by simp) 0).1

/-- `truncToInt` of a nonnegative value is nonnegative. -/
theorem truncToInt_nonneg (r : ℝ) (h : 0 ≤ r) : 0 ≤ truncToInt r := by
  rw [truncToInt, if_pos h]
  exact Int.floor_nonneg.mpr h

/-- `truncToInt` never exceeds a nonnegative integer bound of its argument. -/
theorem truncToInt_le_of_le (r : ℝ) (n : ℤ) (hn : 0 ≤ n) (h : r ≤ (n:ℝ)) :
    truncToInt r ≤ n := by
  rw [truncToInt]
  by_cases h0 : 0 ≤ r
  · rw [if_pos h0, Int.floor_le_iff]
    push_cast
    linarith
  · rw [if_neg h0]
    have : 0 ≤ ⌊-r⌋ := Int.floor_nonneg.mpr (by push_neg at h0; linarith)
    omega

/-- Membership in the inclusive integer range. -/
theorem mem_intRange {x lo hi : ℤ} (h : x ∈ intRange lo hi) : lo ≤ x ∧ x ≤ hi := by
  rw [intRange] at h
  simp only [List.mem_map, List.mem_range] at h
  obtain ⟨k, hk, rfl⟩ := h
  have hk2 : (k : ℤ) < hi + 1 - lo := Int.lt_toNat.mp hk
  omega

/-- A pixel step never touches a flat index other than its own, and never
touches any cell at all when its sign test fails; the resolution fields are
always preserved. Helper for C10. -/
theorem processPixel_untouched (v0 v1 v2 : VertexOut) (material : Material) (light : Light)
    (area : ℝ) (st : Renderer) (p : ℤ × ℤ) (target : ℕ)
    (h : pixelIndex st.width p.1 p.2 ≠ target ∨ ¬ insideSign v0 v1 v2 p.1 p.2) :
    (processPixel v0 v1 v2 material light area st p).color.getD target 0 =
      st.color.getD target 0 ∧
    (processPixel v0 v1 v2 material light area st p).depth.getD target 0 =
      st.depth.getD target 0 ∧
    (processPixel v0 v1 v2 material light area st p).width = st.width ∧
    (processPixel v0 v1 v2 material light area st p).height = st.height := by
  rw [processPixel]
  dsimp only
  split_ifs with h1 h2 h3
  · exact ⟨rfl, rfl, rfl, rfl⟩
  · exact ⟨rfl, rfl, rfl, rfl⟩
  · rcases h with hne | hnin
    · exact ⟨getD_set_ne _ _ _ _ _ hne, getD_set_ne _ _ _ _ _ hne, rfl, rfl⟩
    · exfalso
      apply hnin
      rw [insideSign]
      exact h1
  · exact ⟨rfl, rfl, rfl, rfl⟩

/-- Folding the pixel step over a pixel list leaves a cell unchanged when
every pixel of the list either maps to a different flat index or fails the
sign test; helper for C10. -/
theorem foldPixels_untouched (v0 v1 v2 : VertexOut) (material : Material) (light : Light)
    (area : ℝ) (target : ℕ) :
    ∀ (l : List (ℤ × ℤ)) (st : Renderer),
    (∀ p ∈ l, pixelIndex st.width p.1 p.2 ≠ target ∨ ¬ insideSign v0 v1 v2 p.1 p.2) →
    (l.foldl (processPixel v0 v1 v2 material light area) st).color.getD target 0 =
      st.color.getD target 0 ∧
    (l.foldl (processPixel v0 v1 v2 material light area) st).depth.getD target 0 =
      st.depth.getD target 0 ∧
    (l.foldl (processPixel v0 v1 v2 material light area) st).width = st.width := by
  intro l
  induction l with
  | nil => exact fun st _ => ⟨rfl, rfl, rfl⟩
  | cons p t ih =>
    intro st hall
    rw [List.foldl_cons]
    have hstep := processPixel_untouched v0 v1 v2 material light area st p target
      (hall p (List.mem_cons_self p t))
    have hnext := ih (processPixel v0 v1 v2 material light area st p) (by
      intro q hq
      rw [hstep.2.2.1]
      exact hall q (List.mem_cons_of_mem p hq))
    refine ⟨hnext.1.trans hstep.1, hnext.2.1.trans hstep.2.1, hnext.2.2.trans hstep.2.2.1⟩

/-- Row-major flat indices with in-row offsets below the width are unique;
helper for C10. -/
theorem flat_index_inj (W a b a2 b2 : ℕ) (ha : a < W) (ha2 : a2 < W)
    (h : b * W + a = b2 * W + a2) : a = a2 ∧ b = b2 := by
  have hb : b = b2 := by
    by_contra hne
    rcases Nat.lt_or_ge b b2 with hlt | hge
    · have h2 : (b + 1) * W ≤ b2 * W := Nat.mul_le_mul_right _ hlt
      have h3 : (b + 1) * W = b * W + W := by ring
      omega
    · have hlt2 : b2 < b := by omega
      have h2 : (b2 + 1) * W ≤ b * W := Nat.mul_le_mul_right _ hlt2
      have h3 : (b2 + 1) * W = b2 * W + W := by ring
      omega
  subst hb
  omega

/-- C10: a pixel whose three edge values at its center are not all strictly
negative and not all strictly positive — in particular a pixel center lying
exactly on a triangle edge, where an edge value is zero — is never shaded or
depth-tested by `rasterize_triangle`: both its color cell and its depth cell
are left exactly unchanged. -/
theorem C10_sign_tie_dropped (st : Renderer) (v0 v1 v2 : VertexOut) (material : Material)
    (light : Light) (x y : ℤ) (hw : 1 ≤ st.width) (hx0 : 0 ≤ x) (hx1 : x < (st.width : ℤ))
    (hy0 : 0 ≤ y) (hsign : ¬ insideSign v0 v1 v2 x y) :
    (st.rasterize_triangle v0 v1 v2 material light).color.getD (pixelIndex st.width x y) 0 =
      st.color.getD (pixelIndex st.width x y) 0 ∧
    (st.rasterize_triangle v0 v1 v2 material light).depth.getD (pixelIndex st.width x y) 0 =
      st.depth.getD (pixelIndex st.width x y) 0 := by
  rw [Renderer.rasterize_triangle]
  dsimp only
  split_ifs with h1 h2
  · exact ⟨rfl, rfl⟩
  · exact ⟨rfl, rfl⟩
  · set mnx := truncToInt (max (⌊min (min v0.screen.x v1.screen.x) v2.screen.x⌋ : ℝ) 0)
      with hmnx
    set mxx := truncToInt (min (⌈max (max v0.screen.x v1.screen.x) v2.screen.x⌉ : ℝ)
      ((st.width : ℝ) - 1)) with hmxx
    set mny := truncToInt (max (⌊min (min v0.screen.y v1.screen.y) v2.screen.y⌋ : ℝ) 0)
      with hmny
    set mxy := truncToInt (min (⌈max (max v0.screen.y v1.screen.y) v2.screen.y⌉ : ℝ)
      ((st.height : ℝ) - 1)) with hmxy
    have hminx : (0:ℤ) ≤ mnx := by
      rw [hmnx]
      exact truncToInt_nonneg _ (le_max_right _ 0)
    have hmaxx : mxx ≤ (st.width : ℤ) - 1 := by
      rw [hmxx]
      apply truncToInt_le_of_le
      · omega
      · push_cast
        exact min_le_right _ _
    have hminy : (0:ℤ) ≤ mny := by
      rw [hmny]
      exact truncToInt_nonneg _ (le_max_right _ 0)
    have hall : ∀ p ∈ (intRange mny mxy).flatMap (fun (yy : ℤ) =>
        (intRange mnx mxx).map (fun (xx : ℤ) => (xx, yy))),
        pixelIndex st.width p.1 p.2 ≠ pixelIndex st.width x y ∨
        ¬ insideSign v0 v1 v2 p.1 p.2 := by
      intro p hp
      simp only [List.mem_flatMap, List.mem_map] at hp
      obtain ⟨y1, hy1, x1, hx1m, rfl⟩ := hp
      by_cases hpx : x1 = x ∧ y1 = y
      · exact Or.inr (by rw [hpx.1, hpx.2]; exact hsign)
      · left
        have hxb := mem_intRange hx1m
        have hyb := mem_intRange hy1
        have hx1r : 0 ≤ x1 ∧ x1 ≤ (st.width : ℤ) - 1 :=
          ⟨le_trans hminx hxb.1, le_trans hxb.2 hmaxx⟩
        have hy1r : 0 ≤ y1 := le_trans hminy hyb.1
        rw [pixelIndex, pixelIndex]
        have e1 : (x1.toNat : ℤ) = x1 := Int.toNat_of_nonneg hx1r.1
        have e2 : (y1.toNat : ℤ) = y1 := Int.toNat_of_nonneg hy1r
        have e3 : (x.toNat : ℤ) = x := Int.toNat_of_nonneg hx0
        have e4 : (y.toNat : ℤ) = y := Int.toNat_of_nonneg hy0
        have hxw : x1.toNat < st.width := by omega
        have hxw2 : x.toNat < st.width := by omega
        intro hcontra
        obtain ⟨hxe, hye⟩ := flat_index_inj st.width x1.toNat y1.toNat x.toNat y.toNat
          hxw hxw2 hcontra
        exact hpx ⟨by omega, by omega⟩
    have hfold := foldPixels_untouched v0 v1 v2 material light
      (edge v0.screen v1.screen v2.screen) (pixelIndex st.width x y) _ st hall
    exact ⟨hfold.1, hfold.2.1⟩

/-- C10 witness: on a 2×2 buffer, pixel `(0,0)` whose center `(0.5, 0.5)`
lies exactly on an edge of the screen triangle `(0,0),(1,0),(0,1)` (one edge
value is zero) is untouched. -/
theorem C10_sign_tie_dropped_witness :
    ((Renderer.mk 2 2 (List.replicate 4 0) (List.replicate 4 (1:ℝ))).rasterize_triangle
      (VertexOut.mk (Vec3.new 0 0 0) (Vec3.new 0 0 0) (Vec3.new 0 0 1) 1)
      (VertexOut.mk (Vec3.new 1 0 0) (Vec3.new 1 0 0) (Vec3.new 0 0 1) 1)
      (VertexOut.mk (Vec3.new 0 1 0) (Vec3.new 0 1 0) (Vec3.new 0 0 1) 1)
      (Material.mk (Color.mk 1 1 1) 0)
      (Light.mk (Vec3.new 0 0 (-1)) (Color.mk 1 1 1) 1)).color.getD
        (pixelIndex 2 0 0) 0 =
      (List.replicate 4 0).getD (pixelIndex 2 0 0) 0 :=
  (C10_sign_tie_dropped (Renderer.mk 2 2 (List.replicate 4 0) (List.replicate 4 (1:ℝ)))
    (VertexOut.mk (Vec3.new 0 0 0) (Vec3.new 0 0 0) (Vec3.new 0 0 1) 1)
    (VertexOut.mk (Vec3.new 1 0 0) (Vec3.new 1 0 0) (Vec3.new 0 0 1) 1)
    (VertexOut.mk (Vec3.new 0 1 0) (Vec3.new 0 1 0) (Vec3.new 0 0 1) 1)
    (Material.mk (Color.mk 1 1 1) 0)
    (Light.mk (Vec3.new 0 0 (-1)) (Color.mk 1 1 1) 1) 0 0 (by decide) (by decide)
    (by decide) (by decide)
    (by
      rw [insideSign]
      dsimp only
      norm_num [edge, Vec3.new])).1

/-- Componentwise unfolding of vector subtraction; evaluation helper. -/
theorem Vec3.sub_def (a b : Vec3) : a - b = ⟨a.x - b.x, a.y - b.y, a.z - b.z⟩ := rfl

/-- Componentwise unfolding of vector addition; evaluation helper. -/
theorem Vec3.add_def (a b : Vec3) : a + b = ⟨a.x + b.x, a.y + b.y, a.z + b.z⟩ := rfl

/-- Componentwise unfolding of the scalar product; evaluation helper. -/
theorem Vec3.smul_def (a : Vec3) (s : ℝ) : a * s = ⟨a.x * s, a.y * s, a.z * s⟩ := rfl

/-- Componentwise unfolding of the scalar division; evaluation helper. -/
theorem Vec3.div_def (a : Vec3) (s : ℝ) : a / s = ⟨a.x / s, a.y / s, a.z / s⟩ := rfl

/-- Componentwise unfolding of the matrix–vector product; evaluation helper. -/
theorem Mat4.mulVec4_def (a : Mat4) (v : Vec4) :
    a * v = ⟨a.m00 * v.x + a.m01 * v.y + a.m02 * v.z + a.m03 * v.w,
             a.m10 * v.x + a.m11 * v.y + a.m12 * v.z + a.m13 * v.w,
             a.m20 * v.x + a.m21 * v.y + a.m22 * v.z + a.m23 * v.w,
             a.m30 * v.x + a.m31 * v.y + a.m32 * v.z + a.m33 * v.w⟩ := rfl

/-- The triangle-assembly loop body of `Renderer::draw_mesh` (src/main.rs
lines 780-796): skip the triangle when any vertex was rejected, compute the
flat world-space face normal and cull when its dot product with the view
direction toward the camera is `≤ 0`, otherwise rasterize. -/
def drawTriangle (cam : Camera) (material : Material) (light : Light)
    (transformed : List (Option VertexOut)) (st : Renderer) (tri : ℕ × ℕ × ℕ) : Renderer :=
  match transformed.getD tri.1 none, transformed.getD tri.2.1 none,
      transformed.getD tri.2.2 none with
  | some v0, some v1, some v2 =>
    let view_dir := (cam.position - v0.world).normalized
    let normal := ((v1.world - v0.world).cross (v2.world - v0.world)).normalized
    if normal.dot view_dir ≤ 0 then st
    else st.rasterize_triangle v0 v1 v2 material light
  | _, _, _ => st

/-- `Renderer::draw_mesh` (src/main.rs lines 738-797): transform every
vertex, then fold the triangle loop over the index list. -/
def Renderer.draw_mesh (st : Renderer) (instance0 : RenderInstance)
    (view_projection : Mat4) (camera : Camera) (light : Light) : Renderer :=
  let transformed := (instance0.mesh.vertices.zip instance0.mesh.normals).map
    (fun pn => transformVertex st instance0.transform view_projection pn.1 pn.2)
  instance0.mesh.indices.foldl
    (drawTriangle camera instance0.material light transformed) st

/-- C2 as amended: for a triangle whose three vertices survived projection,
`draw_mesh` skips it (leaving the state untouched, hence no pixels) when the
dot product of the flat world-space face normal with the view direction from
the camera to the first vertex is `≤ 0`, and when that dot product is
positive it hands the triangle to `rasterize_triangle` — which may itself
still produce no pixels (e.g. a degenerate screen-space area), so "no pixels
rasterized" does not imply the dot product was `≤ 0`. -/
theorem C2_backface_cull (cam : Camera) (material : Material) (light : Light)
    (transformed : List (Option VertexOut)) (st : Renderer) (tri : ℕ × ℕ × ℕ)
    (v0 v1 v2 : VertexOut)
    (h0 : transformed.getD tri.1 none = some v0)
    (h1 : transformed.getD tri.2.1 none = some v1)
    (h2 : transformed.getD tri.2.2 none = some v2) :
    ((((v1.world - v0.world).cross (v2.world - v0.world)).normalized).dot
        ((cam.position - v0.world).normalized) ≤ 0 →
      drawTriangle cam material light transformed st tri = st) ∧
    (0 < (((v1.world - v0.world).cross (v2.world - v0.world)).normalized).dot
        ((cam.position - v0.world).normalized) →
      drawTriangle cam material light transformed st tri =
        st.rasterize_triangle v0 v1 v2 material light) := by
  rw [drawTriangle, h0, h1, h2]
  dsimp only
  constructor
  · intro hd
    rw [if_pos hd]
  · intro hd
    rw [if_neg (not_le.mpr hd)]

/-- C2 witness: a degenerate triangle (all three world positions equal) has
zero face normal, the dot product is 0 ≤ 0, and the state passes through
unchanged. -/
theorem C2_backface_cull_witness :
    drawTriangle (Camera.mk (Vec3.new 0 1 0) 0 0 1) (Material.mk (Color.mk 1 1 1) 0)
      (Light.mk (Vec3.new 0 (-1) 0) (Color.mk 1 1 1) 1)
      [some (VertexOut.mk (Vec3.new 1 1 0) (Vec3.new 0 0 0) (Vec3.new 0 1 0) 1),
       some (VertexOut.mk (Vec3.new 2 1 0) (Vec3.new 0 0 0) (Vec3.new 0 1 0) 1),
       some (VertexOut.mk (Vec3.new 1 2 0) (Vec3.new 0 0 0) (Vec3.new 0 1 0) 1)]
      (Renderer.mk 2 2 (List.replicate 4 0) (List.replicate 4 (1:ℝ))) (0, 1, 2) =
    Renderer.mk 2 2 (List.replicate 4 0) (List.replicate 4 (1:ℝ)) :=
  (C2_backface_cull (Camera.mk (Vec3.new 0 1 0) 0 0 1) (Material.mk (Color.mk 1 1 1) 0)
    (Light.mk (Vec3.new 0 (-1) 0) (Color.mk 1 1 1) 1)
    [some (VertexOut.mk (Vec3.new 1 1 0) (Vec3.new 0 0 0) (Vec3.new 0 1 0) 1),
     some (VertexOut.mk (Vec3.new 2 1 0) (Vec3.new 0 0 0) (Vec3.new 0 1 0) 1),
     some (VertexOut.mk (Vec3.new 1 2 0) (Vec3.new 0 0 0) (Vec3.new 0 1 0) 1)]
    (Renderer.mk 2 2 (List.replicate 4 0) (List.replicate 4 (1:ℝ))) (0, 1, 2)
    _ _ _ rfl rfl rfl).1
    (by
      norm_num [Vec3.sub_def, Vec3.cross, Vec3.normalized, Vec3.length,
        Vec3.length_squared, Vec3.dot, Vec3.new, Real.sqrt_zero, Vec3.ZERO])

/-- C2 counterexample to the claim as stated: in this concrete scene all
three vertices of the triangle survive projection (the three `isSome`
conjuncts), the dot product of the flat world-space face normal with the
view direction from the camera to the first vertex is positive (last
conjunct, with the identity instance transform the world positions are the
mesh vertices), and yet the draw rasterizes no pixels — the state is
returned exactly unchanged, because the triangle's screen-space area is
degenerate (all screen y equal) and `rasterize_triangle` bails out on
`|area| < 1e-4`. Hence "skips (rasterizes no pixels) if and only if the dot
product is ≤ 0" is false in the only-if direction. -/
theorem C2_counterexample :
    (Renderer.mk 4 4 (List.replicate 16 0) (List.replicate 16 (1:ℝ))).draw_mesh
      (RenderInstance.mk
        (Mesh.mk [Vec3.new 0 0 0, Vec3.new 0 0 1, Vec3.new 1 0 0]
          [Vec3.new 0 1 0, Vec3.new 0 1 0, Vec3.new 0 1 0] [(0, 1, 2)])
        Mat4.identity (Material.mk (Color.mk 1 1 1) 0))
      Mat4.identity (Camera.mk (Vec3.new 0 1 0) 0 0 1)
      (Light.mk (Vec3.new 0 (-1) 0) (Color.mk 1 1 1) 1) =
      Renderer.mk 4 4 (List.replicate 16 0) (List.replicate 16 (1:ℝ)) ∧
    (transformVertex (Renderer.mk 4 4 (List.replicate 16 0) (List.replicate 16 (1:ℝ)))
      Mat4.identity Mat4.identity (Vec3.new 0 0 0) (Vec3.new 0 1 0)).isSome = true ∧
    (transformVertex (Renderer.mk 4 4 (List.replicate 16 0) (List.replicate 16 (1:ℝ)))
      Mat4.identity Mat4.identity (Vec3.new 0 0 1) (Vec3.new 0 1 0)).isSome = true ∧
    (transformVertex (Renderer.mk 4 4 (List.replicate 16 0) (List.replicate 16 (1:ℝ)))
      Mat4.identity Mat4.identity (Vec3.new 1 0 0) (Vec3.new 0 1 0)).isSome = true ∧
    0 < (((Vec3.new 0 0 1 - Vec3.new 0 0 0).cross
        (Vec3.new 1 0 0 - Vec3.new 0 0 0)).normalized).dot
      ((Vec3.new 0 1 0 - Vec3.new 0 0 0).normalized) := by
  have hv0 : transformVertex (Renderer.mk 4 4 (List.replicate 16 0) (List.replicate 16 (1:ℝ)))
      Mat4.identity Mat4.identity (Vec3.new 0 0 0) (Vec3.new 0 1 0) =
      some (VertexOut.mk (Vec3.new (3/2) (3/2) 0) (Vec3.new 0 0 0) (Vec3.new 0 1 0) 1) := by
    rw [transformVertex]
    norm_num [Mat4.identity, Mat4.mulVec4_def, Vec4.new, Vec4.xyz, Vec3.new,
      Vec3.normalized, Vec3.length, Vec3.length_squared, Real.sqrt_one, Vec3.div_def]
  have hv1 : transformVertex (Renderer.mk 4 4 (List.replicate 16 0) (List.replicate 16 (1:ℝ)))
      Mat4.identity Mat4.identity (Vec3.new 0 0 1) (Vec3.new 0 1 0) =
      some (VertexOut.mk (Vec3.new (3/2) (3/2) 1) (Vec3.new 0 0 1) (Vec3.new 0 1 0) 1) := by
    rw [transformVertex]
    norm_num [Mat4.identity, Mat4.mulVec4_def, Vec4.new, Vec4.xyz, Vec3.new,
      Vec3.normalized, Vec3.length, Vec3.length_squared, Real.sqrt_one, Vec3.div_def]
  have hv2 : transformVertex (Renderer.mk 4 4 (List.replicate 16 0) (List.replicate 16 (1:ℝ)))
      Mat4.identity Mat4.identity (Vec3.new 1 0 0) (Vec3.new 0 1 0) =
      some (VertexOut.mk (Vec3.new 3 (3/2) 0) (Vec3.new 1 0 0) (Vec3.new 0 1 0) 1) := by
    rw [transformVertex]
    norm_num [Mat4.identity, Mat4.mulVec4_def, Vec4.new, Vec4.xyz, Vec3.new,
      Vec3.normalized, Vec3.length, Vec3.length_squared, Real.sqrt_one, Vec3.div_def]
  have hdot : 0 < (((Vec3.new 0 0 1 - Vec3.new 0 0 0).cross
      (Vec3.new 1 0 0 - Vec3.new 0 0 0)).normalized).dot
      ((Vec3.new 0 1 0 - Vec3.new 0 0 0).normalized) := by
    norm_num [Vec3.sub_def, Vec3.cross, Vec3.normalized, Vec3.length, Vec3.length_squared,
      Real.sqrt_one, Vec3.dot, Vec3.new, Vec3.div_def]
  refine ⟨?_, by rw [hv0]; rfl, by rw [hv1]; rfl, by rw [hv2]; rfl, hdot⟩
  have hrast :
      (Renderer.mk 4 4 (List.replicate 16 0) (List.replicate 16 (1:ℝ))).rasterize_triangle
        (VertexOut.mk (Vec3.new (3/2) (3/2) 0) (Vec3.new 0 0 0) (Vec3.new 0 1 0) 1)
        (VertexOut.mk (Vec3.new (3/2) (3/2) 1) (Vec3.new 0 0 1) (Vec3.new 0 1 0) 1)
        (VertexOut.mk (Vec3.new 3 (3/2) 0) (Vec3.new 1 0 0) (Vec3.new 0 1 0) 1)
        (Material.mk (Color.mk 1 1 1) 0) (Light.mk (Vec3.new 0 (-1) 0) (Color.mk 1 1 1) 1) =
      Renderer.mk 4 4 (List.replicate 16 0) (List.replicate 16 (1:ℝ)) := by
    rw [Renderer.rasterize_triangle]
    dsimp only [Vec3.new]
    rw [if_neg, if_pos]
    · norm_num [edge]
    · have hcel : (⌈(3/2:ℝ)⌉ : ℤ) = 2 := by
        rw [Int.ceil_eq_iff]
        norm_num
      norm_num [truncToInt, min_def, max_def, hcel]
  rw [Renderer.draw_mesh]
  dsimp only [List.zip_cons_cons, List.zip_nil_right, List.map_cons, List.map_nil,
    List.foldl_cons, List.foldl_nil]
  rw [hv0, hv1, hv2, drawTriangle]
  dsimp only [List.getD]
  simp only [List.zip_nil_left, List.map_nil, List.get?_cons_zero, List.get?_cons_succ,
    Option.getD_some]
  rw [if_neg]
  · exact hrast
  · norm_num [Vec3.sub_def, Vec3.cross, Vec3.normalized, Vec3.length, Vec3.length_squared,
      Real.sqrt_one, Vec3.dot, Vec3.new, Vec3.div_def]
